import Mathlib

/-!
Shallow embedding of the `symphonia-format-rtpdump` crate of the
`symphonia-voip` repository, covering the RTP header parser (`rtp.rs`),
the statistical codec detector (`codec_detector.rs`) and the two channel
reordering/reconstruction engines (`demuxer.rs`, `demuxer_new.rs`),
together with theorems settling the specification claims about them.

Machine integers are modelled as `Nat` with explicit reductions modulo
`2^16` / `2^32` exactly where the Rust code performs wrapping arithmetic;
Rust `saturating_sub` on unsigned integers is `Nat` subtraction; fallible
Rust code returns `Except`/`Option`.
-/

/-! ## Machine-integer helpers -/

/-- Modulus of `u16`. -/
def u16Mod : Nat := 65536

/-- Modulus of `u32`. -/
def u32Mod : Nat := 4294967296

/-- `u16::wrapping_add` for values `< u16Mod`. -/
def wrapAdd16 (a b : Nat) : Nat := (a + b) % u16Mod

/-- `u16::wrapping_sub` for values `< u16Mod`. -/
def wrapSub16 (a b : Nat) : Nat := (a + u16Mod - b) % u16Mod

/-- `u32::wrapping_add` for values `< u32Mod`. -/
def wrapAdd32 (a b : Nat) : Nat := (a + b) % u32Mod

/-- `u32::wrapping_sub` for values `< u32Mod`. -/
def wrapSub32 (a b : Nat) : Nat := (a + u32Mod - b) % u32Mod

/-! ## Abstract RTP packet view

The demuxers and the detector consume packets only through the accessors
of the `RtpPacket` trait (`payload_type`, `seq`, `ts`, `ssrc`, `payload`),
so those components are modelled over a record of the accessor values.
The byte-level layout is modelled separately below for `parse_rtp`. -/

structure RPkt where
  /-- `payload_type()` as its 7-bit numeric value (`u8::from(PayloadType)`). -/
  pt : Nat
  /-- `seq()`, a `u16`. -/
  seq : Nat
  /-- `ts()`, a `u32`. -/
  ts : Nat
  /-- `ssrc()`, a `u32`. -/
  ssrc : Nat
  /-- `payload()` bytes. -/
  payload : List Nat
deriving DecidableEq

/-- `SimpleRtpPacket::dummy(ssrc)`: a 12-byte all-zero header except the
synchronization source, hence seq 0, ts 0, empty payload. -/
def RPkt.dummy (ssrc : Nat) : RPkt := ⟨0, 0, 0, ssrc, []⟩

/-- `SimpleRtpPacket::dummy_ts(ssrc, ts)`: like `dummy` with a timestamp. -/
def RPkt.dummyTs (ssrc ts : Nat) : RPkt := ⟨0, 0, ts, ssrc, []⟩

/-- `PayloadType::is_dynamic`: `PayloadType::from(u8)` yields the
`Dynamic` variant exactly for values in `96..=127`. -/
def isDynamicPt (pt : Nat) : Bool := decide (96 ≤ pt) && decide (pt ≤ 127)

/-! ## Byte-level RTP parsing (`rtp.rs`) -/

/-- `u16::from_be_bytes([hi, lo])`. -/
def be16 (hi lo : Nat) : Nat := hi * 256 + lo

/-- Padding flag: bit `0b0010_0000` of byte 0 (`RtpPacket::padding`). -/
def hasPadding (raw : List Nat) : Bool := raw.getD 0 0 &&& 32 == 32

/-- Extension flag: bit `0b0001_0000` of byte 0 (`RtpPacket::extension`). -/
def hasExtension (raw : List Nat) : Bool := raw.getD 0 0 &&& 16 == 16

/-- The extension length in 32-bit words, read big-endian at offset 14
(both `parse_rtp` and `RtpPacket::payload` read these two bytes). -/
def extLenWords (raw : List Nat) : Nat := be16 (raw.getD 14 0) (raw.getD 15 0)

/-- The bytes remaining after the 12-byte fixed header and (when the
extension flag is set) the `4 + 4*len` bytes of the extension block: the
slice `parse_rtp` calls `rem` when it reaches the padding check. -/
def remAfterHeaderExt (raw : List Nat) : List Nat :=
  if hasExtension raw then raw.drop (16 + extLenWords raw * 4)
  else raw.drop 12

/-- Stage two of `parse_rtp`: the padding check and the final non-empty
check (`rtp.rs:428-444`), over the remainder `rem` left after the header
and the extension block. -/
def parsePadStage (data rem : List Nat) : Except String Unit :=
  match
    (if hasPadding data then
      match rem.getLast? with
      | none => Except.error "Invalid RTP Packet: no payload avaliable"
      | some len =>
        if rem.length ≤ len then
          Except.error "Invalid RTP Packet: padding is longer than payload len"
        else Except.ok (rem.take (rem.length - 1 - len))
    else Except.ok rem) with
  | Except.error e => Except.error e
  | Except.ok rem =>
    if rem.isEmpty then Except.error "Invalid RTP Packet: no payload avaliable"
    else Except.ok ()

/-- `parse_rtp` (`rtp.rs:416`): validates the buffer; `take(12)` demands a
12-byte header, the extension block demands `2 + 2 + 4*len` further bytes,
a declared padding length `>=` the remaining length is malformed, and an
empty remainder after stripping `1 + len` padding bytes is malformed. -/
def parse_rtp (data : List Nat) : Except String Unit :=
  if data.length < 12 then .error "unexpected end of input" else
  let rem := data.drop 12
  let remE : Except String (List Nat) :=
    if hasExtension data then
      if rem.length < 4 then .error "unexpected end of input"
      else
        let len := be16 (rem.getD 2 0) (rem.getD 3 0)
        if rem.length - 4 < len * 4 then .error "unexpected end of input"
        else .ok (rem.drop (4 + len * 4))
    else .ok rem
  match remE with
  | .error e => .error e
  | .ok rem => parsePadStage data rem

/-- `RtpPacket::payload` (`rtp.rs:318`): the payload slice with extension
and padding stripped. Returns `none` where the Rust code would panic
(slice index out of bounds, or `buf.len() - padding_len` underflowing);
none of those cases is reachable from a buffer `parse_rtp` accepted.
Note the source starts the post-extension slice at offset `14 + 4*len`
(it forgets the two bytes of the length field itself) and strips only
`padding_len` trailing bytes, not `1 + padding_len` as `parse_rtp` does. -/
def payloadOf (raw : List Nat) : Option (List Nat) :=
  let bufO : Option (List Nat) :=
    if ¬ hasExtension raw then
      if raw.length < 12 then none else some (raw.drop 12)
    else
      if raw.length < 16 then none
      else if raw.length < 14 + extLenWords raw * 4 then none
      else some (raw.drop (14 + extLenWords raw * 4))
  match bufO with
  | none => none
  | some buf =>
    if hasPadding raw then
      match buf.getLast? with
      | none => some buf
      | some len =>
        if buf.length < len then none
        else some (buf.take (buf.length - len))
    else some buf

/-- `parse_rtp_event` (`rtp.rs:547`) succeeds exactly on a 4-byte payload
(1 byte event id, 1 byte flags, 2-byte big-endian duration, nothing else)
whose event id is a valid `EventCode`, i.e. at most 16 (`Flash`). -/
def parse_rtp_event_ok (payload : List Nat) : Bool :=
  payload.length == 4 && decide (payload.getD 0 0 ≤ 16)

/-! ## Association-list maps

`HashMap`/`HashSet`/`IndexMap` state is represented by association lists.
Lookups and updates below mirror the individual Rust match expressions;
`IndexMap` iteration (`features`) follows insertion order as in the
source, while `HashMap` iteration order is unspecified in Rust, so
`get_result` is additionally analysed over arbitrary enumerations. -/

/-- `HashMap::get`. -/
def lookupA {α β : Type} [DecidableEq α] : List (α × β) → α → Option β
  | [], _ => none
  | e :: rest, k => if e.1 == k then some e.2 else lookupA rest k

/-- `HashMap::insert` (overwrites an existing binding). -/
def setA {α β : Type} [DecidableEq α] : List (α × β) → α → β → List (α × β)
  | [], k, v => [(k, v)]
  | e :: rest, k, v => if e.1 == k then (k, v) :: rest else e :: setA rest k v

/-! ## Codec detector data model (`codec_detector.rs`) -/

/-- `Codec`: identity record; equality is by full field set. -/
structure Codec where
  name : String
  sample_rate : Nat
  channels : Option Nat
  bit_rate : Option Nat
  params : Option String
  max_frames_per_packet : Option Nat
  payload_type : Option Nat
  delta_time : Option Nat
deriving DecidableEq

/-- The `fraction` crate value `Fraction::new(num, den)` over unsigned
inputs, kept in lowest terms; a zero denominator yields infinity, `0/0`
yields NaN. Equality is structural on the reduced representation. -/
inductive Frac where
  | nan : Frac
  | inf : Frac
  | rat (num den : Nat) : Frac
deriving DecidableEq

/-- `Fraction::new`. -/
def fracNew (n d : Nat) : Frac :=
  if d = 0 then (if n = 0 then Frac.nan else Frac.inf)
  else Frac.rat (n / Nat.gcd n d) (d / Nat.gcd n d)

/-- `CodecFeature`: one timing/size signature. `ratioVal` is the field the
source names `ratio` (renamed here), `Fraction::new(delta_time, ps)`. -/
structure CodecFeature where
  payload_size : Option Nat
  delta_time : Nat
  ratioVal : Option Frac
  sid_frame : Bool
deriving DecidableEq

/-- `CodecFeature::new`. -/
def CodecFeature.new (payload_size : Option Nat) (delta_time : Nat) : CodecFeature :=
  ⟨payload_size, delta_time, payload_size.map (fun ps => fracNew delta_time ps), false⟩

/-- `CodecDetector` state. -/
structure CodecDetector where
  pt_pkt_stat : List (Nat × Nat)
  codec_stat : List (Nat × List (Codec × Nat))
  features : List (Codec × List CodecFeature)
  last_seq : List (Nat × Nat)
  last_ts : List (Nat × Nat)
  max_uniq_payload_size_num : Nat
  payload_size_stat : List (Nat × List Nat)
deriving DecidableEq

/-- `CodecDetector::last_seq`: the stored last-seen sequence for a
synchronization source, defaulting to 0 for unseen sources. -/
def CodecDetector.lastSeqOf (st : CodecDetector) (ssrc : Nat) : Nat :=
  (lookupA st.last_seq ssrc).getD 0

/-- `CodecDetector::last_ts`, defaulting to 0 for unseen sources. -/
def CodecDetector.lastTsOf (st : CodecDetector) (ssrc : Nat) : Nat :=
  (lookupA st.last_ts ssrc).getD 0

/-- `CodecDetector::update_codec_stat` (`codec_detector.rs:119`), used on
the static-payload-type path. Note its `Some(stat)` branch increments an
existing counter but inserts nothing when the codec is absent. -/
def update_codec_stat (cs : List (Nat × List (Codec × Nat))) (pt : Nat) (codec : Codec) :
    List (Nat × List (Codec × Nat)) :=
  match lookupA cs pt with
  | none => cs ++ [(pt, [(codec, 1)])]
  | some _ =>
    cs.map (fun e =>
      if e.1 == pt then
        (e.1, e.2.map (fun c => if c.1 == codec then (c.1, c.2 + 1) else c))
      else e)

/-- The inline `codec_stat` update of the dynamic matching loop
(`codec_detector.rs:235`), which does insert an absent codec. -/
def bump_codec_stat (cs : List (Nat × List (Codec × Nat))) (pt : Nat) (codec : Codec) :
    List (Nat × List (Codec × Nat)) :=
  match lookupA cs pt with
  | none => cs ++ [(pt, [(codec, 1)])]
  | some _ =>
    cs.map (fun e =>
      if e.1 == pt then
        (e.1,
          if (lookupA e.2 codec).isSome then
            e.2.map (fun c => if c.1 == codec then (c.1, c.2 + 1) else c)
          else e.2 ++ [(codec, 1)])
      else e)

/-- `CodecDetector::add_payload_len`: record a distinct observed payload
length for the payload type (`HashSet` as a duplicate-free list). -/
def add_payload_len (pss : List (Nat × List Nat)) (pt len : Nat) : List (Nat × List Nat) :=
  match lookupA pss pt with
  | none => pss ++ [(pt, [len])]
  | some _ =>
    pss.map (fun e =>
      if e.1 == pt then (e.1, if e.2.contains len then e.2 else e.2 ++ [len])
      else e)

/-- The `pt_pkt_stat` update of `on_pkt` (`codec_detector.rs:178`). -/
def bump_pt_stat (pps : List (Nat × Nat)) (pt : Nat) : List (Nat × Nat) :=
  match lookupA pps pt with
  | none => pps ++ [(pt, 1)]
  | some _ => pps.map (fun e => if e.1 == pt then (e.1, e.2 + 1) else e)

/-- `CodecDetector::is_dynamic_len` over an explicit `payload_size_stat`
(the source reads the map after `add_payload_len` has run, so the entry
is always present; the `unreachable!` arm is modelled by the default). -/
def is_dynamic_len (pss : List (Nat × List Nat)) (pt maxNum : Nat) : Bool :=
  decide (((lookupA pss pt).getD []).length > maxNum)

/-- The divisor of the `delta_time` division in `on_pkt`
(`codec_detector.rs:185`): `pkt.seq().wrapping_sub(self.last_seq(pkt))`. -/
def seqDivisor (st : CodecDetector) (pkt : RPkt) : Nat :=
  wrapSub16 pkt.seq (st.lastSeqOf pkt.ssrc)

/-- First codec of the profile whose name equals `n`
(`self.features.iter().find(|(c, _)| c.name.as_str() == ..)`). -/
def firstByName (features : List (Codec × List CodecFeature)) (n : String) : Option Codec :=
  (features.find? (fun e => e.1.name == n)).map (fun e => e.1)

/-- Per-feature match test of the dynamic loop (`codec_detector.rs:199`). -/
def ftMatch (pktft : CodecFeature) (ft : CodecFeature) : Bool :=
  match pktft.payload_size with
  | some _ =>
    let cond1 := ft.ratioVal == pktft.ratioVal && !ft.sid_frame
    let cond2 := ft.sid_frame && pktft.payload_size == ft.payload_size
    cond1 || cond2
  | none => ft.delta_time == pktft.delta_time

/-- The feature-matching loop of `on_pkt` (`codec_detector.rs:196-250`),
folding over the profile in declaration order while threading the
`pkt_is_amrwb` flag. The bitstream validators `is_amrwb` / `is_evs` live
in the `symphonia-bundle-amr` / `symphonia-bundle-evs` crates and are
taken as parameters; the `unwrap()` of the by-name lookups cannot fail in
the source (the iterated codec itself bears the name) and is modelled by
defaulting to the iterated codec. -/
def creditLoop (isAmrwbFn isEvsFn : List Nat → Bool)
    (features : List (Codec × List CodecFeature)) (pktft : CodecFeature)
    (payload : List Nat) (pt : Nat)
    (cs0 : List (Nat × List (Codec × Nat))) : List (Nat × List (Codec × Nat)) :=
  (features.foldl (fun acc e =>
    e.2.foldl (fun acc ft =>
      if ftMatch pktft ft then
        let cs := acc.1
        let isA := acc.2
        if e.1.name == "amrwb" || e.1.name == "evs" then
          if isAmrwbFn payload && e.1.name == "amrwb" then
            (bump_codec_stat cs pt ((firstByName features "amrwb").getD e.1), true)
          else if isEvsFn payload && !isA then
            (bump_codec_stat cs pt ((firstByName features "evs").getD e.1), isA)
          else acc
        else (bump_codec_stat cs pt e.1, isA)
      else acc) acc) (cs0, false)).1

/-- `CodecDetector::on_pkt` (`codec_detector.rs:155`). -/
def on_pkt (isAmrwbFn isEvsFn : List Nat → Bool) (st : CodecDetector) (pkt : RPkt) :
    CodecDetector :=
  if parse_rtp_event_ok pkt.payload then st
  else if !isDynamicPt pkt.pt then
    match (st.features.find? (fun e => e.1.payload_type == some pkt.pt)).map (fun e => e.1) with
    | some codec => { st with codec_stat := update_codec_stat st.codec_stat pkt.pt codec }
    | none => st
  else if pkt.seq == st.lastSeqOf pkt.ssrc then st
  else
    let pss := add_payload_len st.payload_size_stat pkt.pt pkt.payload.length
    let pps := bump_pt_stat st.pt_pkt_stat pkt.pt
    let dt := wrapSub32 pkt.ts (st.lastTsOf pkt.ssrc) / seqDivisor st pkt
    let ls := setA st.last_seq pkt.ssrc pkt.seq
    let lt := setA st.last_ts pkt.ssrc pkt.ts
    let payload_len : Option Nat :=
      if is_dynamic_len pss pkt.pt st.max_uniq_payload_size_num then none
      else some (pkt.payload.length % u16Mod)
    let pktft := CodecFeature.new payload_len dt
    { st with
      payload_size_stat := pss
      pt_pkt_stat := pps
      last_seq := ls
      last_ts := lt
      codec_stat := creditLoop isAmrwbFn isEvsFn st.features pktft pkt.payload pkt.pt st.codec_stat }

/-- One iteration of the `get_result` loop (`codec_detector.rs:264-272`)
for the entry `en` of one payload type: the inner `for` with `break` is
the first candidate, in enumeration order, whose count exceeds
`tot * 618 / 1000`; on a hit the verdict is inserted into `result`. -/
def grStep (pps : List (Nat × Nat)) (result : List (Nat × Codec))
    (en : Nat × List (Codec × Nat)) : List (Nat × Codec) :=
  match en.2.find? (fun c => decide ((lookupA pps en.1).getD 0 * 618 / 1000 < c.2)) with
  | some c => setA result en.1 c.1
  | none => result

/-- `CodecDetector::get_result` (`codec_detector.rs:262`) over an explicit
enumeration `e` of the `codec_stat` hash map. Rust's `HashMap` iteration
order is unspecified, so properties of `get_result` are stated over any
list enumerating the map's entries. -/
def get_result_from (e : List (Nat × List (Codec × Nat))) (pps : List (Nat × Nat)) :
    List (Nat × Codec) :=
  e.foldl (grStep pps) []

/-- `get_result` at the canonical (insertion-order) enumeration. -/
def CodecDetector.get_result (st : CodecDetector) : List (Nat × Codec) :=
  get_result_from st.codec_stat st.pt_pkt_stat

/-- Modelled from the spec: the decision rule as the spec words it, with
candidate codecs iterated in profile-declaration order and the verdict
being the first declared codec whose count exceeds the threshold. -/
def get_result_decl_order (features : List (Codec × List CodecFeature))
    (e : List (Nat × List (Codec × Nat))) (pps : List (Nat × Nat)) :
    List (Nat × Codec) :=
  e.foldl (fun result en =>
    let tot := (lookupA pps en.1).getD 0
    match (features.find? (fun f =>
        match lookupA en.2 f.1 with
        | some cnt => decide (tot * 618 / 1000 < cnt)
        | none => false)).map (fun f => f.1) with
    | some c => setA result en.1 c
    | none => result) []

/-- Two association lists enumerate the same nested hash-map content when
they agree as multisets of (key, multiset-of-entries) pairs. -/
def statMultiset (e : List (Nat × List (Codec × Nat))) :
    Multiset (Nat × Multiset (Codec × Nat)) :=
  ((e.map (fun en => (en.1, (en.2 : Multiset (Codec × Nat))))) : List (Nat × Multiset (Codec × Nat)))

/-- `e` is a legitimate iteration order of the same map state as `s`. -/
def IsEnumOf (e s : List (Nat × List (Codec × Nat))) : Prop :=
  statMultiset e = statMultiset s

/-! ## Channel reordering engine (`demuxer.rs`) -/

/-- `Channel` of `demuxer.rs` (`startTs`/`endTs` are the source fields
`start`/`end`, renamed because `end` is reserved). -/
structure Channel where
  ssrc : Nat
  delta_time : Nat
  startTs : Nat
  endTs : Nat
  missed : Nat
  pkts : List RPkt
  pkt_cnt : Nat
  last_ts : Option Nat
deriving DecidableEq

/-- The timestamp-window admission test of `Channel::add_pkt`
(`demuxer.rs:98-108`): `true` when the packet is kept. -/
def Channel.accepts (chl : Channel) (pkt : RPkt) : Bool :=
  if chl.startTs < chl.endTs then
    !(decide (pkt.ts < chl.startTs) || decide (chl.endTs < pkt.ts))
  else
    !(decide (pkt.ts < chl.endTs) && decide (chl.startTs < pkt.ts))

/-- `Channel::find_first_greater_seq_pkt` (`demuxer.rs:89`): index of the
first buffered packet with strictly greater sequence number. -/
def find_first_greater_seq_pkt (pkts : List RPkt) (pkt : RPkt) : Option Nat :=
  match pkts with
  | [] => none
  | p :: rest =>
    if pkt.seq < p.seq then some 0
    else (find_first_greater_seq_pkt rest pkt).map (fun i => i + 1)

/-- `VecDeque::insert` at an index. -/
def insertAtIdx (l : List RPkt) (i : Nat) (p : RPkt) : List RPkt :=
  l.take i ++ p :: l.drop i

/-- `Channel::add_pkt` (`demuxer.rs:97`). -/
def Channel.add_pkt (chl : Channel) (pkt : RPkt) : Channel :=
  if !chl.accepts pkt then chl
  else
    let pkts :=
      match chl.pkts.getLast? with
      | some lastP =>
        if wrapAdd16 lastP.seq 1 == pkt.seq then chl.pkts ++ [pkt]
        else
          match find_first_greater_seq_pkt chl.pkts pkt with
          | some gre => insertAtIdx chl.pkts gre pkt
          | none => chl.pkts ++ [pkt]
      | none => chl.pkts ++ [pkt]
    { chl with pkts := pkts, pkt_cnt := chl.pkt_cnt + 1 }

/-- Feeding a sequence of packets through `Channel::add_pkt`. -/
def feedAll (chl : Channel) (l : List RPkt) : Channel :=
  l.foldl Channel.add_pkt chl

/-- The gap computation of `Channel::get_pkts` (`demuxer.rs:153`):
`pkt.ts().saturating_sub(ts) / self.delta_time`; `u32::saturating_sub`
is `Nat` subtraction. -/
def gapOf (headTs deliveredTs delta : Nat) : Nat :=
  (headTs - deliveredTs) / delta

/-- The `loop` of `Channel::get_pkts` (`demuxer.rs:131-209`), with the
channel fields the loop mutates made explicit. Arguments: the request
size `cnt`, the packet queue `self.pkts`, `self.last_ts`, `self.missed`
and the output accumulator `pkts` (here `acc`). Returns the emitted
frames together with the final queue, `last_ts` and `missed`. Every
continuing iteration pops the queue head, so the recursion is structural
on the queue. -/
def getPktsGo (ssrc endTs delta cnt : Nat) (queue : List RPkt) (lastTs : Option Nat)
    (missed : Nat) (acc : List RPkt) : List RPkt × List RPkt × Option Nat × Nat :=
  if cnt + missed ≤ acc.length then (acc, queue, lastTs, 0)
  else
    match queue, lastTs with
    | [], none =>
      (acc ++ (List.range cnt).map (fun _ => RPkt.dummy ssrc), [], none, missed)
    | pkt :: rest, none =>
      getPktsGo ssrc endTs delta cnt rest (some pkt.ts) missed (acc ++ [pkt])
    | pkt :: rest, some ts =>
      let gap := gapOf pkt.ts ts delta
      let overflow_cnt := (acc.length + gap) - cnt
      if gap = 1 ∧ overflow_cnt = 0 then
        getPktsGo ssrc endTs delta cnt rest (some pkt.ts) missed (acc ++ [pkt])
      else if 1 < gap ∧ overflow_cnt = 0 then
        getPktsGo ssrc endTs delta cnt rest (some pkt.ts) missed
          (acc ++ (List.range (gap - 1)).map
              (fun i => RPkt.dummyTs ssrc (wrapAdd32 ts ((i + 1) * delta))) ++ [pkt])
      else if gap = 1 ∧ 0 < overflow_cnt then
        if missed = 0 then (acc, pkt :: rest, some ts, missed)
        else getPktsGo ssrc endTs delta cnt rest (some pkt.ts) (missed - 1) (acc ++ [pkt])
      else if 1 < gap ∧ 0 < overflow_cnt then
        let k := cnt - acc.length
        (acc ++ (List.range k).map
            (fun i => RPkt.dummyTs ssrc (wrapAdd32 ts ((i + 1) * delta))),
         pkt :: rest, some (wrapAdd32 ts (k * delta)), missed)
      else
        getPktsGo ssrc endTs delta cnt rest (some ts) missed acc
    | [], some ts =>
      if endTs ≤ ts then
        let k := cnt - acc.length
        (acc ++ (List.range k).map
            (fun i => RPkt.dummyTs ssrc (wrapAdd32 ts ((i + 1) * delta))),
         [], some (wrapAdd32 ts (k * delta)), missed)
      else (acc, [], some ts, missed + (cnt - acc.length))

/-- `Channel::get_pkts` (`demuxer.rs:131`). -/
def Channel.get_pkts (chl : Channel) (cnt : Nat) : List RPkt × Channel :=
  let r := getPktsGo chl.ssrc chl.endTs chl.delta_time cnt chl.pkts chl.last_ts chl.missed []
  (r.1, { chl with pkts := r.2.1, last_ts := r.2.2.1, missed := r.2.2.2 })

/-- Modelled from the spec: the gap as the wrapping (mod `2^32`)
difference of head and delivered timestamps, divided by `delta_time`. -/
def gapWrapSpec (headTs deliveredTs delta : Nat) : Nat :=
  wrapSub32 headTs deliveredTs / delta

/-! ## New channel engine (`demuxer_new.rs`): `sync` and `active`

`std::time::Duration` values are modelled as `Nat` nanoseconds;
`Duration::as_millis` divides by `10^6`, `Duration::saturating_sub` is
`Nat` subtraction. -/

/-- `Channel` of `demuxer_new.rs`, restricted to the fields `sync`,
`active` and `finished` touch (the ingress/egress machinery of `get_pkt`
is independent of them). -/
structure ChannelN where
  ssrc : Nat
  delta_time : Nat
  /-- Frame duration in milliseconds (`u16`). -/
  frame_dur : Nat
  startTs : Nat
  endTs : Nat
  /-- `first_packet`, nanoseconds. -/
  first_packet : Nat
  /-- `last_packet`, nanoseconds. -/
  last_packet : Nat
  /-- `timestamp`, nanoseconds. -/
  timestamp : Nat
  delivered : Option Nat
  /-- `last_dummy_ts`, nanoseconds. -/
  last_dummy_ts : Nat
  ingress : List RPkt
  ingress_sort_uniq_len : Nat
  egress : List RPkt
deriving DecidableEq

/-- `Duration::as_millis` on nanoseconds. -/
def durAsMillis (d : Nat) : Nat := d / 1000000

/-- `Channel::active` (`demuxer_new.rs:119`): started and not ended. -/
def ChannelN.active (c : ChannelN) : Bool :=
  decide (c.first_packet ≤ c.timestamp) && !(decide (c.last_packet ≤ c.timestamp))

/-- `Channel::sync` (`demuxer_new.rs:167`). It first stores the arrival
time in `self.timestamp`, returns if the channel is active, and otherwise
emits one dummy frame when the elapsed whole milliseconds since the last
dummy emission reach `frame_dur` (the Rust `u128` division would panic
for `frame_dur = 0`; theorems assume `0 < frame_dur`). -/
def ChannelN.sync (c : ChannelN) (ts : Nat) : ChannelN :=
  let c1 := { c with timestamp := ts }
  if c1.active then c1
  else
    let dur := durAsMillis (c1.timestamp - c1.last_dummy_ts)
    if dur / c1.frame_dur ≠ 0 then
      { c1 with egress := c1.egress ++ [RPkt.dummy c1.ssrc], last_dummy_ts := ts }
    else c1

/-! ## Concrete instances used by counterexamples and witnesses -/

/-- A codec statically bound to payload type 18 (G.729-style profile entry). -/
def g729Codec : Codec := ⟨"g729", 8000, none, none, none, none, some 18, none⟩

/-- A detector whose profile contains exactly one codec, bound to static
payload type 18. -/
def detector18 : CodecDetector :=
  ⟨[], [], [(g729Codec, [⟨some 10, 80, some (fracNew 80 10), false⟩])], [], [], 3, []⟩

/-- A payload-type-18 packet whose 4-byte payload is a well-formed RTP
telephony event (event id 0, flags 0, duration 0). -/
def evtPkt18 : RPkt := ⟨18, 5, 100, 1, [0, 0, 0, 0]⟩

/-- A payload-type-18 packet with an ordinary 10-byte voice payload. -/
def voicePkt18 : RPkt := ⟨18, 5, 100, 1, [1, 1, 1, 1, 1, 1, 1, 1, 1, 1]⟩

/-- Two distinct candidate codecs for the order-sensitivity counterexample. -/
def codecA : Codec := ⟨"pcma", 8000, none, none, none, none, none, none⟩

def codecB : Codec := ⟨"pcmu", 8000, none, none, none, none, none, none⟩

/-- A channel whose delivered-timestamp cursor sits just below the `u32`
wraparound and whose queue head has wrapped past it. -/
def wrapChl : Channel := ⟨1, 1, 0, 0, 0, [⟨0, 3, 0, 1, [9]⟩], 1, some 4294967295⟩

/-- The default channel of the `demuxer.rs` tests (window accepts every
timestamp) with an empty buffer. -/
def chl0 : Channel := ⟨0, 1, 0, 0, 0, [], 0, none⟩

/-- The packet with the largest `u16` sequence number. -/
def pktTop : RPkt := ⟨0, 65535, 0, 0, []⟩

/-- The packet with sequence number 0. -/
def pktZero : RPkt := ⟨0, 0, 0, 0, []⟩

/-- A `demuxer_new.rs` channel that is active at arrival time 0.5s
(first_packet 0, last_packet 1s). -/
def actChl : ChannelN := ⟨7, 160, 20, 0, 0, 0, 1000000000, 0, none, 0, [], 0, []⟩

/-- A `demuxer_new.rs` channel that has not started yet (first_packet 1s),
hence is not active, with the last dummy emission at time 0. -/
def idleChl : ChannelN := ⟨7, 160, 20, 0, 0, 1000000000, 2000000000, 0, none, 0, [], 0, []⟩

/-- The 45-byte RTP packet of the `rtp.rs` unit test
(no extension, no padding, 33-byte payload). -/
def testPktBytes : List Nat :=
  [0x80, 0x7f, 0x00, 0x02, 0x08, 0x37, 0x76, 0x60, 0x00, 0x84, 0x1a, 0xa8, 0x8b, 0x73,
   0x6f, 0xf5, 0x58, 0x4a, 0xc0, 0x90, 0x44, 0xc4, 0x50, 0x16, 0x03, 0xd8, 0x07, 0xfe,
   0x19, 0x2b, 0x80, 0x28, 0x02, 0x00, 0x80, 0x00, 0x16, 0x70, 0x90, 0x5c, 0x69, 0xdc,
   0xf0, 0xa9, 0x5c]

/-- A padded packet whose declared padding length (32) equals the number
of bytes remaining after the 12-byte header. -/
def badPadBytes : List Nat :=
  [0xa0, 0x7f, 0x00, 0x02, 0x08, 0x37, 0x76, 0x60, 0x00, 0x84, 0x1a, 0xa8] ++
    List.replicate 31 0 ++ [32]

/-- An extra packet for witnesses: dynamic payload type 96, sequence 0,
from a synchronization source the detector has never seen. -/
def dynPkt0 : RPkt := ⟨96, 0, 1000, 42, [1, 2, 3]⟩

/-- Witness packets with sequence numbers 5 and 3. -/
def pktSeq5 : RPkt := ⟨0, 5, 0, 0, []⟩

def pktSeq3 : RPkt := ⟨0, 3, 0, 0, []⟩

/-- Ordered insertion before the first strictly greater sequence number:
the effect of `find_first_greater_seq_pkt` followed by `VecDeque::insert`
(or `push_back` when no greater element exists), in direct recursive
form; `insert_by_first_greater_eq` below proves it equal to the indexed
formulation of the source. -/
def insertAux (pkt : RPkt) : List RPkt → List RPkt
  | [] => [pkt]
  | q :: rest => if pkt.seq < q.seq then pkt :: q :: rest else q :: insertAux pkt rest

/-! ## Association-list lemmas -/

theorem lookupA_setA_self {α β : Type} [DecidableEq α] (l : List (α × β)) (k : α) (v : β) :
    lookupA (setA l k v) k = some v := by
  induction l with
  | nil => simp [setA, lookupA]
  | cons e rest ih =>
    by_cases h : e.1 = k
    · simp [setA, lookupA, h]
    · simp [setA, lookupA, h, ih]

theorem lookupA_setA_ne {α β : Type} [DecidableEq α] (l : List (α × β)) (k k' : α) (v : β)
    (h : k' ≠ k) : lookupA (setA l k v) k' = lookupA l k' := by
  induction l with
  | nil =>
    have hk : k ≠ k' := Ne.symm h
    simp [setA, lookupA, hk]
  | cons e rest ih =>
    by_cases he : e.1 = k
    · subst he
      have hk : ¬ e.1 = k' := fun hh => h (hh ▸ rfl)
      simp [setA, lookupA, hk]
    · rw [setA]
      rw [if_neg (by simpa using he)]
      by_cases he' : e.1 = k'
      · simp [lookupA, he']
      · simp [lookupA, he', ih]

theorem lookupA_setA_isSome {α β : Type} [DecidableEq α] (l : List (α × β)) (k k' : α) (v : β)
    (h : (lookupA l k').isSome = true) : (lookupA (setA l k v) k').isSome = true := by
  by_cases hk : k' = k
  · subst hk; simp [lookupA_setA_self]
  · rw [lookupA_setA_ne l k k' v hk]; exact h

/-! ## `get_result` over arbitrary enumerations -/

theorem grFold_lookup_some (pps : List (Nat × Nat)) :
    ∀ (e : List (Nat × List (Codec × Nat))) (acc : List (Nat × Codec)) (pt : Nat) (c : Codec),
      lookupA (e.foldl (grStep pps) acc) pt = some c →
      (∃ stat cnt, (pt, stat) ∈ e ∧ (c, cnt) ∈ stat ∧
          ((lookupA pps pt).getD 0) * 618 / 1000 < cnt) ∨
        lookupA acc pt = some c := by
  intro e
  induction e with
  | nil => intro acc pt c h; exact Or.inr h
  | cons en rest ih =>
    intro acc pt c h
    rw [List.foldl_cons] at h
    rcases ih (grStep pps acc en) pt c h with hex | hacc
    · rcases hex with ⟨stat, cnt, hmem, hc, hlt⟩
      exact Or.inl ⟨stat, cnt, List.mem_cons_of_mem _ hmem, hc, hlt⟩
    · unfold grStep at hacc
      rcases hfind : en.2.find? (fun c =>
          decide ((lookupA pps en.1).getD 0 * 618 / 1000 < c.2)) with _ | cp
      · rw [hfind] at hacc
        exact Or.inr hacc
      · rw [hfind] at hacc
        by_cases hpt : pt = en.1
        · subst hpt
          rw [lookupA_setA_self] at hacc
          have hcm := List.mem_of_find?_eq_some hfind
          have hcp := List.find?_some hfind
          simp only [decide_eq_true_eq] at hcp
          refine Or.inl ⟨en.2, cp.2, ?_, ?_, hcp⟩
          · exact List.mem_cons_self _ _
          · cases hacc; simpa using hcm
        · rw [lookupA_setA_ne _ _ _ _ hpt] at hacc
          exact Or.inr hacc

theorem grFold_lookup_unchanged (pps : List (Nat × Nat)) :
    ∀ (e : List (Nat × List (Codec × Nat))) (acc : List (Nat × Codec)) (pt : Nat),
      (∀ stat, (pt, stat) ∈ e → ∀ q ∈ stat,
          ¬ ((lookupA pps pt).getD 0 * 618 / 1000 < q.2)) →
      lookupA (e.foldl (grStep pps) acc) pt = lookupA acc pt := by
  intro e
  induction e with
  | nil => intro acc pt _; rfl
  | cons en rest ih =>
    intro acc pt h
    rw [List.foldl_cons]
    rw [ih (grStep pps acc en) pt (fun stat hs => h stat (List.mem_cons_of_mem _ hs))]
    unfold grStep
    rcases hfind : en.2.find? (fun c =>
        decide ((lookupA pps en.1).getD 0 * 618 / 1000 < c.2)) with _ | cp
    · rw [hfind]
    · rw [hfind]
      by_cases hpt : pt = en.1
      · subst hpt
        have hcm := List.mem_of_find?_eq_some hfind
        have hcp := List.find?_some hfind
        simp only [decide_eq_true_eq] at hcp
        exact absurd hcp (h en.2 (List.mem_cons_self _ _) cp hcm)
      · exact lookupA_setA_ne _ _ _ _ hpt

theorem grFold_isSome_mono (pps : List (Nat × Nat)) :
    ∀ (e : List (Nat × List (Codec × Nat))) (acc : List (Nat × Codec)) (pt : Nat),
      (lookupA acc pt).isSome = true →
      (lookupA (e.foldl (grStep pps) acc) pt).isSome = true := by
  intro e
  induction e with
  | nil => intro acc pt h; exact h
  | cons en rest ih =>
    intro acc pt h
    rw [List.foldl_cons]
    refine ih _ pt ?_
    unfold grStep
    rcases hfind : en.2.find? (fun c =>
        decide ((lookupA pps en.1).getD 0 * 618 / 1000 < c.2)) with _ | cp
    · rw [hfind]; exact h
    · rw [hfind]; exact lookupA_setA_isSome _ _ _ _ h

theorem grFold_isSome_of_exceed (pps : List (Nat × Nat)) :
    ∀ (e : List (Nat × List (Codec × Nat))) (acc : List (Nat × Codec)) (pt : Nat)
      (stat : List (Codec × Nat)) (c : Codec) (cnt : Nat),
      (pt, stat) ∈ e → (c, cnt) ∈ stat →
      ((lookupA pps pt).getD 0) * 618 / 1000 < cnt →
      (lookupA (e.foldl (grStep pps) acc) pt).isSome = true := by
  intro e
  induction e with
  | nil => intro acc pt stat c cnt h; simp at h
  | cons en rest ih =>
    intro acc pt stat c cnt hmem hc hlt
    rw [List.foldl_cons]
    rcases List.mem_cons.mp hmem with heq | hrest
    · refine grFold_isSome_mono pps rest _ pt ?_
      have hen : en = (pt, stat) := heq.symm
      subst hen
      unfold grStep
      rcases hfind : stat.find? (fun c =>
          decide ((lookupA pps pt).getD 0 * 618 / 1000 < c.2)) with _ | cp
      · exfalso
        have hnone := List.find?_eq_none.mp hfind (c, cnt) hc
        simp only [decide_eq_true_eq] at hnone
        exact hnone hlt
      · rw [hfind]
        simp [lookupA_setA_self]
    · exact ih _ pt stat c cnt hrest hc hlt


/-- Claim C1, amended (the provable part): over any enumeration order `e`
of the candidate map, `get_result` returns for a payload type only codecs
whose match count exceeds `tot * 618 / 1000`, and it returns some codec
for a payload type exactly when some candidate exceeds that threshold.
Which exceeding candidate wins is decided by the enumeration order of the
`HashMap`, not by profile-declaration order. -/
theorem get_result_first_crossing_any_order :
    ∀ (e : List (Nat × List (Codec × Nat))) (pps : List (Nat × Nat)) (pt : Nat),
      (∀ c, lookupA (get_result_from e pps) pt = some c →
        ∃ stat cnt, (pt, stat) ∈ e ∧ (c, cnt) ∈ stat ∧
          ((lookupA pps pt).getD 0) * 618 / 1000 < cnt) ∧
      ((lookupA (get_result_from e pps) pt).isSome = true ↔
        ∃ stat c cnt, (pt, stat) ∈ e ∧ (c, cnt) ∈ stat ∧
          ((lookupA pps pt).getD 0) * 618 / 1000 < cnt) := by
  intro e pps pt
  constructor
  · intro c h
    rcases grFold_lookup_some pps e [] pt c h with hex | habs
    · exact hex
    · simp [lookupA] at habs
  · constructor
    · intro h
      by_contra hno
      have hnone : lookupA (get_result_from e pps) pt = none := by
        refine grFold_lookup_unchanged pps e [] pt ?_
        intro stat hstat q hq hlt
        exact hno ⟨stat, q.1, q.2, hstat, by simpa using hq, hlt⟩
      rw [hnone] at h
      simp at h
    · rintro ⟨stat, c, cnt, hmem, hc, hlt⟩
      exact grFold_isSome_of_exceed pps e [] pt stat c cnt hmem hc hlt

/-- Claim C1, witness: with a single candidate at 700 of 1000 packets the
amended theorem yields a verdict for payload type 96. -/
theorem get_result_first_crossing_any_order_witness :
    (lookupA (get_result_from [(96, [(codecA, 700)])] [(96, 1000)]) 96).isSome = true :=
  (get_result_first_crossing_any_order [(96, [(codecA, 700)])] [(96, 1000)] 96).2.mpr
    ⟨[(codecA, 700)], codecA, 700, List.mem_singleton_self _, List.mem_singleton_self _,
      by decide⟩

/-- Claim C1, counterexample: the same detector state (two candidates
both above the threshold for payload type 96, `codecA` declared first in
the profile) admits a legitimate hash-map enumeration under which
`get_result` returns `codecB`, while the spec's declaration-order rule
returns `codecA`; the verdict is therefore not the earliest-declared
exceeding candidate. -/
theorem get_result_order_counterexample :
    IsEnumOf [(96, [(codecB, 700), (codecA, 700)])] [(96, [(codecA, 700), (codecB, 700)])] ∧
    lookupA (get_result_from [(96, [(codecB, 700), (codecA, 700)])] [(96, 1000)]) 96 =
      some codecB ∧
    lookupA (get_result_decl_order [(codecA, []), (codecB, [])]
        [(96, [(codecA, 700), (codecB, 700)])] [(96, 1000)]) 96 = some codecA ∧
    codecB ≠ codecA := by
  refine ⟨?_, rfl, rfl, by decide⟩
  have hin : (([(codecB, 700), (codecA, 700)] : List (Codec × Nat)) : Multiset (Codec × Nat)) =
      (([(codecA, 700), (codecB, 700)] : List (Codec × Nat)) : Multiset (Codec × Nat)) :=
    Multiset.coe_eq_coe.mpr (List.Perm.swap _ _ _)
  show statMultiset _ = statMultiset _
  unfold statMultiset
  simp only [List.map]
  rw [hin]

/-- Claim C4: for a payload type totalling 1000 packets, candidates with
match count 617 — and even 618, the threshold value itself — never enter
the result, under any enumeration order: the count must strictly exceed
`1000 * 618 / 1000 = 618`. -/
theorem result_omits_617_of_1000 :
    ∀ (pt : Nat) (e : List (Nat × List (Codec × Nat))) (pps : List (Nat × Nat)),
      lookupA pps pt = some 1000 →
      ((∀ stat, (pt, stat) ∈ e → ∀ q ∈ stat, q.2 = 617) →
        lookupA (get_result_from e pps) pt = none) ∧
      ((∀ stat, (pt, stat) ∈ e → ∀ q ∈ stat, q.2 = 618) →
        lookupA (get_result_from e pps) pt = none) := by
  intro pt e pps hpps
  have hthr : (lookupA pps pt).getD 0 * 618 / 1000 = 618 := by rw [hpps]; rfl
  constructor
  · intro hall
    refine grFold_lookup_unchanged pps e [] pt ?_
    intro stat hstat q hq
    rw [hthr, hall stat hstat q hq]
    omega
  · intro hall
    refine grFold_lookup_unchanged pps e [] pt ?_
    intro stat hstat q hq
    rw [hthr, hall stat hstat q hq]
    omega

/-- Claim C4, witness: a single candidate with 617 (resp. 618) matches of
1000 packets is omitted for payload type 96. -/
theorem result_omits_617_of_1000_witness :
    lookupA (get_result_from [(96, [(codecA, 617)])] [(96, 1000)]) 96 = none ∧
    lookupA (get_result_from [(96, [(codecA, 618)])] [(96, 1000)]) 96 = none := by
  constructor
  · refine (result_omits_617_of_1000 96 [(96, [(codecA, 617)])] [(96, 1000)] rfl).1 ?_
    intro stat hs q hq
    rw [List.mem_singleton] at hs
    injection hs with h1 h2
    subst h2
    rw [List.mem_singleton] at hq
    subst hq
    rfl
  · refine (result_omits_617_of_1000 96 [(96, [(codecA, 618)])] [(96, 1000)] rfl).2 ?_
    intro stat hs q hq
    rw [List.mem_singleton] at hs
    injection hs with h1 h2
    subst h2
    rw [List.mem_singleton] at hq
    subst hq
    rfl

/-- Claim C3, amended (the provable part): a payload-type-18 packet whose
payload is not a well-formed RTP telephony event is credited directly —
the only state change is `update_codec_stat` on the codec bound to type
18 — and `get_result` maps type 18 (whose `pt_pkt_stat` total is absent,
hence 0) to that codec as soon as it has one credit. -/
theorem static_type18_credit (A E : List Nat → Bool) (st : CodecDetector) (pkt : RPkt)
    (c : Codec)
    (hfind : (st.features.find? (fun e => e.1.payload_type == some pkt.pt)).map
      (fun e => e.1) = some c)
    (hpt : pkt.pt = 18)
    (hev : parse_rtp_event_ok pkt.payload = false) :
    on_pkt A E st pkt = { st with codec_stat := update_codec_stat st.codec_stat pkt.pt c } ∧
    (∀ (pps : List (Nat × Nat)) (n : Nat), lookupA pps 18 = none → 0 < n →
      lookupA (get_result_from [(18, [(c, n)])] pps) 18 = some c) := by
  constructor
  · unfold on_pkt
    rw [hev]
    have hdyn : isDynamicPt pkt.pt = false := by rw [hpt]; rfl
    rw [hdyn]
    simp only [Bool.not_false, if_true, if_false]
    rw [hfind]
    simp
  · intro pps n hl hn
    have h0 : (lookupA pps (18 : Nat)).getD 0 * 618 / 1000 = 0 := by rw [hl]; rfl
    have hfind2 : List.find?
        (fun q => decide ((lookupA pps (18 : Nat)).getD 0 * 618 / 1000 < q.2)) [(c, n)] =
        some (c, n) := by
      refine List.find?_cons_of_pos _ ?_
      rw [h0]
      simpa using hn
    show lookupA (List.foldl (grStep pps) [] [(18, [(c, n)])]) 18 = some c
    rw [List.foldl_cons, List.foldl_nil]
    unfold grStep
    rw [hfind2]
    rfl

/-- Claim C3, witness: the single-codec type-18 profile credits `g729Codec`
for an ordinary voice packet, and one credit suffices for the verdict. -/
theorem static_type18_credit_witness :
    on_pkt (fun _ => false) (fun _ => false) detector18 voicePkt18 =
      { detector18 with
        codec_stat := update_codec_stat detector18.codec_stat voicePkt18.pt g729Codec } ∧
    lookupA (get_result_from [(18, [(g729Codec, 1)])] []) 18 = some g729Codec :=
  ⟨(static_type18_credit (fun _ => false) (fun _ => false) detector18 voicePkt18 g729Codec
      rfl rfl rfl).1,
   (static_type18_credit (fun _ => false) (fun _ => false) detector18 voicePkt18 g729Codec
      rfl rfl rfl).2 [] 1 rfl (by decide)⟩

/-- Claim C3, counterexample: a payload-type-18 packet whose 4-byte
payload parses as an RTP telephony event is filtered out before the
static-type short-circuit: `on_pkt` leaves the detector unchanged and
`get_result` does not map payload type 18, although the profile binds a
codec to type 18. -/
theorem static_type18_event_counterexample :
    evtPkt18.pt = 18 ∧
    g729Codec.payload_type = some 18 ∧
    on_pkt (fun _ => false) (fun _ => false) detector18 evtPkt18 = detector18 ∧
    lookupA (CodecDetector.get_result
      (on_pkt (fun _ => false) (fun _ => false) detector18 evtPkt18)) 18 = none :=
  ⟨rfl, rfl, rfl, rfl⟩

/-- Claim C9: a dynamic-payload-type packet whose sequence number equals
the stored last-seen sequence for its source returns early from `on_pkt`,
and whenever the sequence differs from the stored one (both being `u16`
values), the wrapping-subtraction divisor of the `delta_time` division is
nonzero, so the division is total. -/
theorem on_pkt_delta_divisor_nonzero (A E : List Nat → Bool) (st : CodecDetector) (pkt : RPkt)
    (hseq : pkt.seq < u16Mod) (hlast : st.lastSeqOf pkt.ssrc < u16Mod) :
    (isDynamicPt pkt.pt = true → pkt.seq = st.lastSeqOf pkt.ssrc →
      on_pkt A E st pkt = st) ∧
    (pkt.seq ≠ st.lastSeqOf pkt.ssrc → seqDivisor st pkt ≠ 0) := by
  constructor
  · intro hdyn heq
    unfold on_pkt
    by_cases hev : parse_rtp_event_ok pkt.payload
    · simp [hev]
    · simp [hev, hdyn, heq]
  · intro hne h0
    unfold seqDivisor wrapSub16 at h0
    rcases Nat.dvd_of_mod_eq_zero h0 with ⟨k, hk⟩
    unfold u16Mod at hseq hlast hk
    omega

/-- Claim C9, witness: in the empty-statistics detector the stored
sequence defaults to 0, so a packet with sequence 5 has a nonzero divisor. -/
theorem on_pkt_delta_divisor_nonzero_witness :
    seqDivisor detector18 voicePkt18 ≠ 0 :=
  (on_pkt_delta_divisor_nonzero (fun _ => false) (fun _ => false) detector18 voicePkt18
    (by decide) (by decide)).2 (by decide)

/-- Claim C10: a dynamic-payload-type packet from a never-observed
synchronization source with sequence number 0 is discarded (the stored
last-seen sequence defaults to 0, so the duplicate check fires) and the
detector state is unchanged. -/
theorem on_pkt_unseen_seq0_unchanged (A E : List Nat → Bool) (st : CodecDetector) (pkt : RPkt)
    (hdyn : isDynamicPt pkt.pt = true)
    (hnew : lookupA st.last_seq pkt.ssrc = none)
    (hseq : pkt.seq = 0) :
    on_pkt A E st pkt = st := by
  unfold on_pkt
  by_cases hev : parse_rtp_event_ok pkt.payload
  · simp [hev]
  · have hl : st.lastSeqOf pkt.ssrc = 0 := by
      unfold CodecDetector.lastSeqOf
      rw [hnew]
      rfl
    simp [hev, hdyn, hl, hseq]

/-- Claim C10, witness: a dynamic packet (type 96, sequence 0) from the
unseen source 42 leaves the detector unchanged. -/
theorem on_pkt_unseen_seq0_unchanged_witness :
    on_pkt (fun _ => false) (fun _ => false) detector18 dynPkt0 = detector18 :=
  on_pkt_unseen_seq0_unchanged (fun _ => false) (fun _ => false) detector18 dynPkt0
    (by decide) rfl rfl

/-- Claim C6: when the `get_pkts` loop finds the queue empty with a
delivered-timestamp cursor `ts` (and the request is not yet satisfied):
if `ts` has not reached `end`, the shortfall `cnt - produced` is added to
the missed-debt counter and nothing synthetic is emitted; if `ts` has
reached `end`, the whole remaining budget is emitted as dummy frames at
`ts + delta`, `ts + 2*delta`, … and the cursor advances accordingly. -/
theorem get_pkts_empty_queue_cases
    (ssrc endTs delta cnt ts missed : Nat) (acc : List RPkt)
    (hlen : acc.length < cnt + missed) :
    (ts < endTs →
      getPktsGo ssrc endTs delta cnt [] (some ts) missed acc =
        (acc, [], some ts, missed + (cnt - acc.length))) ∧
    (endTs ≤ ts →
      getPktsGo ssrc endTs delta cnt [] (some ts) missed acc =
        (acc ++ (List.range (cnt - acc.length)).map
            (fun i => RPkt.dummyTs ssrc (wrapAdd32 ts ((i + 1) * delta))),
         [], some (wrapAdd32 ts ((cnt - acc.length) * delta)), missed)) := by
  have hnot : ¬ cnt + missed ≤ acc.length := by omega
  constructor
  · intro hts
    have hend : ¬ endTs ≤ ts := by omega
    rw [getPktsGo]
    simp [hnot, hend]
  · intro hend
    rw [getPktsGo]
    simp [hnot, hend]

/-- Claim C6, witness: requesting 2 frames from an empty queue with
cursor 5: debt accrues while `end = 10` is unreached; with `end = 5` the
budget is synthesized at timestamps 6 and 7. -/
theorem get_pkts_empty_queue_cases_witness :
    getPktsGo 1 10 1 2 [] (some 5) 0 [] = ([], [], some 5, 2) ∧
    getPktsGo 1 5 1 2 [] (some 5) 0 [] =
      ([RPkt.dummyTs 1 6, RPkt.dummyTs 1 7], [], some 7, 0) := by
  constructor
  · have h := (get_pkts_empty_queue_cases 1 10 1 2 5 0 [] (by decide)).1 (by decide)
    simpa using h
  · have h := (get_pkts_empty_queue_cases 1 5 1 2 5 0 [] (by decide)).2 (by decide)
    simpa [wrapAdd32, u32Mod, List.range_succ] using h

/-- Claim C2, amended (the provable part): the gap is computed with
saturating, not wrapping, subtraction (`gapOf`), so when the 32-bit
timestamp wraps between the delivered cursor and the head packet
(head.ts < delivered numerically), the gap is 0 — not the wraparound
distance — no branch of the loop matches, and the head packet is
silently discarded. -/
theorem get_pkts_gap_saturates_on_wrap
    (ssrc endTs delta cnt missed ts : Nat) (pkt : RPkt) (rest acc : List RPkt)
    (hlen : acc.length < cnt + missed)
    (hwrap : pkt.ts < ts) :
    gapOf pkt.ts ts delta = 0 ∧
    getPktsGo ssrc endTs delta cnt (pkt :: rest) (some ts) missed acc =
      getPktsGo ssrc endTs delta cnt rest (some ts) missed acc := by
  have hgap : gapOf pkt.ts ts delta = 0 := by
    unfold gapOf
    have : pkt.ts - ts = 0 := by omega
    rw [this]
    simp
  refine ⟨hgap, ?_⟩
  have hnot : ¬ cnt + missed ≤ acc.length := by omega
  conv =>
    lhs
    rw [getPktsGo]
  simp [hnot, hgap]

/-- Claim C2, witness: a head packet one tick past the wrap (ts 0) behind
a cursor at `u32::MAX` is dropped and the loop proceeds with the rest. -/
theorem get_pkts_gap_saturates_on_wrap_witness :
    gapOf 0 4294967295 1 = 0 ∧
    getPktsGo 1 0 1 1 [⟨0, 3, 0, 1, [9]⟩] (some 4294967295) 0 [] =
      getPktsGo 1 0 1 1 [] (some 4294967295) 0 [] :=
  get_pkts_gap_saturates_on_wrap 1 0 1 1 0 4294967295 ⟨0, 3, 0, 1, [9]⟩ [] []
    (by decide) (by decide)

/-- Claim C2, counterexample: with the cursor at `u32::MAX` and the head
packet at wrapped timestamp 0, the wrapping gap of the claim is 1 (so the
claim demands the head packet be delivered directly), but the code's
saturating gap is 0 and `get_pkts` returns a synthetic dummy instead of
the real head packet, which has been dropped. -/
theorem get_pkts_wrap_counterexample :
    gapWrapSpec 0 4294967295 1 = 1 ∧
    gapOf 0 4294967295 1 = 0 ∧
    (Channel.get_pkts wrapChl 1).1 = [RPkt.dummyTs 1 0] ∧
    RPkt.dummyTs 1 0 ≠ (⟨0, 3, 0, 1, [9]⟩ : RPkt) := by
  refine ⟨by decide, by decide, by decide, by decide⟩

/-- Claim C7, amended (the provable part): `sync(arrival_time)` always
stores the arrival time in the channel clock; beyond that it changes
nothing while the channel is active (w.r.t. the updated clock), and when
the channel is not active it appends exactly one synthetic frame to the
egress queue and records the emission time iff the elapsed whole
milliseconds since the last synthetic emission reach `frame_dur` (at
least, not strictly more than, one frame duration). -/
theorem sync_effects (c : ChannelN) (ts : Nat) (hfd : 0 < c.frame_dur) :
    ((ChannelN.sync c ts).timestamp = ts) ∧
    (({ c with timestamp := ts } : ChannelN).active = true →
      ChannelN.sync c ts = { c with timestamp := ts }) ∧
    (({ c with timestamp := ts } : ChannelN).active = false →
      (c.frame_dur ≤ durAsMillis (ts - c.last_dummy_ts) →
        ChannelN.sync c ts =
          { c with
            timestamp := ts
            egress := c.egress ++ [RPkt.dummy c.ssrc]
            last_dummy_ts := ts }) ∧
      (durAsMillis (ts - c.last_dummy_ts) < c.frame_dur →
        ChannelN.sync c ts = { c with timestamp := ts })) := by
  refine ⟨?_, ?_, ?_⟩
  · unfold ChannelN.sync
    by_cases ha : ({ c with timestamp := ts } : ChannelN).active
    · simp [ha]
    · simp only [ha, if_false, Bool.false_eq_true]
      by_cases hd : durAsMillis (ts - c.last_dummy_ts) / c.frame_dur ≠ 0
      · simp [hd]
      · simp [hd]
  · intro ha
    unfold ChannelN.sync
    simp [ha]
  · intro ha
    constructor
    · intro hge
      unfold ChannelN.sync
      have hne : durAsMillis (ts - c.last_dummy_ts) / c.frame_dur ≠ 0 := by
        have h1 : 1 ≤ durAsMillis (ts - c.last_dummy_ts) / c.frame_dur :=
          (Nat.one_le_div_iff hfd).mpr hge
        omega
      simp [ha, hne]
    · intro hlt
      unfold ChannelN.sync
      have hz : durAsMillis (ts - c.last_dummy_ts) / c.frame_dur = 0 :=
        Nat.div_eq_of_lt hlt
      simp [ha, hz]

/-- Claim C7, witness: at arrival 20ms, the idle channel (frame duration
20ms, last emission at time 0) records the clock and emits exactly one
dummy frame. -/
theorem sync_effects_witness :
    (ChannelN.sync idleChl 20000000).timestamp = 20000000 ∧
    ChannelN.sync idleChl 20000000 =
      { idleChl with
        timestamp := 20000000
        egress := [RPkt.dummy 7]
        last_dummy_ts := 20000000 } := by
  constructor
  · exact (sync_effects idleChl 20000000 (by decide)).1
  · have h := ((sync_effects idleChl 20000000 (by decide)).2.2 (by decide)).1 (by decide)
    simpa using h

/-- Claim C7, counterexample: `sync` is not a no-op on an active channel —
it updates the channel clock (`self.timestamp = ts` runs before the
active check) — and on an idle channel it emits when the elapsed time
exactly equals one frame duration, which the claim's strict "exceeds"
forbids. -/
theorem sync_counterexample :
    ChannelN.sync actChl 500000000 ≠ actChl ∧
    (ChannelN.sync actChl 500000000).active = true ∧
    durAsMillis (20000000 - idleChl.last_dummy_ts) = idleChl.frame_dur ∧
    ({ idleChl with timestamp := 20000000 } : ChannelN).active = false ∧
    (ChannelN.sync idleChl 20000000).egress = [RPkt.dummy 7] := by
  refine ⟨by decide, by decide, by decide, by decide, by decide⟩

/-! ## Sorted insertion lemmas for `Channel::add_pkt` (`demuxer.rs`) -/

theorem insert_by_first_greater_eq (pkts : List RPkt) (pkt : RPkt) :
    (match find_first_greater_seq_pkt pkts pkt with
     | some gre => insertAtIdx pkts gre pkt
     | none => pkts ++ [pkt]) = insertAux pkt pkts := by
  induction pkts with
  | nil => rfl
  | cons q rest ih =>
    unfold find_first_greater_seq_pkt
    by_cases h : pkt.seq < q.seq
    · simp [h, insertAux, insertAtIdx]
    · simp only [h, if_false]
      rcases hf : find_first_greater_seq_pkt rest pkt with _ | i
      · rw [hf] at ih
        simp only [Option.map_none']
        rw [insertAux]
        simp [h, ← ih]
      · rw [hf] at ih
        simp only [Option.map_some']
        rw [insertAux]
        simp only [h, if_false]
        rw [← ih]
        unfold insertAtIdx
        rw [List.take_succ_cons, List.drop_succ_cons]
        rfl

theorem insertAux_perm (pkt : RPkt) (l : List RPkt) : (insertAux pkt l).Perm (pkt :: l) := by
  induction l with
  | nil => rfl
  | cons q rest ih =>
    rw [insertAux]
    by_cases h : pkt.seq < q.seq
    · simp [h]
    · simp only [h, if_false]
      exact (ih.cons q).trans (List.Perm.swap pkt q rest)

theorem insertAux_append (pkt : RPkt) (l : List RPkt)
    (h : ∀ q ∈ l, ¬ pkt.seq < q.seq) : insertAux pkt l = l ++ [pkt] := by
  induction l with
  | nil => rfl
  | cons q rest ih =>
    rw [insertAux]
    rw [if_neg (h q (List.mem_cons_self _ _))]
    rw [ih (fun r hr => h r (List.mem_cons_of_mem _ hr))]
    rfl

theorem insertAux_sorted (pkt : RPkt) (l : List RPkt)
    (hs : List.Pairwise (fun a b => a.seq < b.seq) l)
    (hne : ∀ q ∈ l, q.seq ≠ pkt.seq) :
    List.Pairwise (fun a b : RPkt => a.seq < b.seq) (insertAux pkt l) := by
  induction l with
  | nil => simp [insertAux]
  | cons q rest ih =>
    rw [List.pairwise_cons] at hs
    obtain ⟨hq, hrest⟩ := hs
    rw [insertAux]
    by_cases h : pkt.seq < q.seq
    · rw [if_pos h]
      refine List.Pairwise.cons ?_ (List.Pairwise.cons hq hrest)
      intro r hr
      rcases List.mem_cons.mp hr with hr1 | hr2
      · rw [hr1]; exact h
      · exact h.trans (hq r hr2)
    · rw [if_neg h]
      refine List.Pairwise.cons ?_ (ih hrest (fun r hr => hne r (List.mem_cons_of_mem _ hr)))
      intro r hr
      have hmem : r ∈ pkt :: rest := (insertAux_perm pkt rest).mem_iff.mp hr
      rcases List.mem_cons.mp hmem with hr1 | hr2
      · have hq0 := hne q (List.mem_cons_self _ _)
        rw [hr1]
        omega
      · exact hq r hr2

theorem sorted_getLast_max (l : List RPkt) (b : RPkt)
    (hs : List.Pairwise (fun a b : RPkt => a.seq < b.seq) l)
    (hl : l.getLast? = some b) : ∀ q ∈ l, q.seq ≤ b.seq := by
  induction l with
  | nil => simp at hl
  | cons a rest ih =>
    rcases rest with _ | ⟨a2, rest2⟩
    · have hb : a = b := by simpa using hl
      intro q hq
      have : q = a := by simpa using hq
      rw [this, hb]
    · rw [List.getLast?_cons_cons] at hl
      rw [List.pairwise_cons] at hs
      obtain ⟨ha, hrest⟩ := hs
      intro q hq
      rcases List.mem_cons.mp hq with hq1 | hq2
      · have hb : b ∈ a2 :: rest2 := List.mem_of_mem_getLast? hl
        rw [hq1]
        exact Nat.le_of_lt (ha b hb)
      · exact ih hrest hl q hq2

theorem add_pkt_pkts_eq (chl : Channel) (pkt : RPkt)
    (hacc : chl.accepts pkt = true)
    (hs : List.Pairwise (fun a b : RPkt => a.seq < b.seq) chl.pkts)
    (hb : ∀ q ∈ chl.pkts, q.seq < u16Mod)
    (hwrap : ¬ (pkt.seq = 0 ∧ ∃ q ∈ chl.pkts, q.seq = 65535)) :
    (chl.add_pkt pkt).pkts = insertAux pkt chl.pkts := by
  unfold Channel.add_pkt
  rw [hacc]
  simp only [Bool.not_true, Bool.false_eq_true, if_false]
  rcases hl : chl.pkts.getLast? with _ | lastP
  · have hnil : chl.pkts = [] := List.getLast?_eq_none_iff.mp hl
    rw [hnil]
    rfl
  · have hmem : lastP ∈ chl.pkts := List.mem_of_mem_getLast? hl
    by_cases hfast : wrapAdd16 lastP.seq 1 == pkt.seq
    · have hfval : (lastP.seq + 1) % 65536 = pkt.seq := by
        have := (beq_iff_eq).mp hfast
        simpa [wrapAdd16, u16Mod] using this
      by_cases htop : lastP.seq = 65535
      · exfalso
        refine hwrap ⟨?_, lastP, hmem, htop⟩
        rw [htop] at hfval
        simpa using hfval.symm
      · have hlt := hb lastP hmem
        unfold u16Mod at hlt
        have hmod : (lastP.seq + 1) % 65536 = lastP.seq + 1 := Nat.mod_eq_of_lt (by omega)
        have hval : pkt.seq = lastP.seq + 1 := by omega
        have hmax := sorted_getLast_max chl.pkts lastP hs hl
        rw [insertAux_append pkt chl.pkts (fun q hq => by have := hmax q hq; omega)]
        simp [hl, hfast]
    · rw [← insert_by_first_greater_eq chl.pkts pkt]
      simp [hl, hfast]

theorem add_pkt_window_fields (chl : Channel) (pkt : RPkt) :
    (chl.add_pkt pkt).startTs = chl.startTs ∧ (chl.add_pkt pkt).endTs = chl.endTs := by
  unfold Channel.add_pkt
  by_cases h : chl.accepts pkt <;> simp [h]

theorem accepts_add_pkt (chl : Channel) (p q : RPkt) :
    (chl.add_pkt p).accepts q = chl.accepts q := by
  unfold Channel.accepts
  rw [(add_pkt_window_fields chl p).1, (add_pkt_window_fields chl p).2]

theorem find_first_greater_none (pkts : List RPkt) (pkt : RPkt)
    (h : ∀ q ∈ pkts, ¬ pkt.seq < q.seq) : find_first_greater_seq_pkt pkts pkt = none := by
  induction pkts with
  | nil => rfl
  | cons q rest ih =>
    unfold find_first_greater_seq_pkt
    rw [if_neg (h q (List.mem_cons_self _ _))]
    rw [ih (fun r hr => h r (List.mem_cons_of_mem _ hr))]
    rfl

theorem feedAll_sorted_perm :
    ∀ (l : List RPkt) (chl : Channel),
      (∀ p ∈ l, chl.accepts p = true) →
      List.Pairwise (fun a b : RPkt => a.seq < b.seq) chl.pkts →
      (((chl.pkts ++ l).map RPkt.seq).Nodup) →
      (∀ x ∈ chl.pkts ++ l, x.seq < u16Mod) →
      ¬ ((∃ x ∈ chl.pkts ++ l, x.seq = 0) ∧ (∃ x ∈ chl.pkts ++ l, x.seq = 65535)) →
      List.Pairwise (fun a b : RPkt => a.seq < b.seq) (feedAll chl l).pkts ∧
        (feedAll chl l).pkts.Perm (chl.pkts ++ l) := by
  intro l
  induction l with
  | nil =>
    intro chl _ hs _ _ _
    exact ⟨hs, by simp [feedAll]⟩
  | cons p rest ih =>
    intro chl hacc hs hnd hb hw
    have hpmem : p ∈ chl.pkts ++ p :: rest := by simp
    have hne : ∀ q ∈ chl.pkts, q.seq ≠ p.seq := by
      intro q hq hqs
      rw [List.map_append] at hnd
      have hdisj := (List.nodup_append.mp hnd).2.2
      refine hdisj (a := q.seq) (List.mem_map_of_mem _ hq) ?_
      rw [hqs]
      exact List.mem_map_of_mem _ (List.mem_cons_self _ _)
    have hwrapstep : ¬ (p.seq = 0 ∧ ∃ q ∈ chl.pkts, q.seq = 65535) := by
      rintro ⟨h0, q, hq, h65⟩
      exact hw ⟨⟨p, hpmem, h0⟩, ⟨q, List.mem_append_left _ hq, h65⟩⟩
    have hpk : (chl.add_pkt p).pkts = insertAux p chl.pkts :=
      add_pkt_pkts_eq chl p (hacc p (List.mem_cons_self _ _)) hs
        (fun q hq => hb q (List.mem_append_left _ hq)) hwrapstep
    have hperm1 : (chl.add_pkt p).pkts.Perm (p :: chl.pkts) := by
      rw [hpk]; exact insertAux_perm p chl.pkts
    have hs1 : List.Pairwise (fun a b : RPkt => a.seq < b.seq) (chl.add_pkt p).pkts := by
      rw [hpk]; exact insertAux_sorted p chl.pkts hs hne
    have hpermall : ((chl.add_pkt p).pkts ++ rest).Perm (chl.pkts ++ p :: rest) := by
      refine (hperm1.append_right rest).trans ?_
      exact List.perm_middle.symm
    have hfa : feedAll chl (p :: rest) = feedAll (chl.add_pkt p) rest := rfl
    rw [hfa]
    have ihres := ih (chl.add_pkt p)
      (fun q hq => by rw [accepts_add_pkt]; exact hacc q (List.mem_cons_of_mem _ hq))
      hs1
      (((hpermall.map RPkt.seq).nodup_iff).mpr hnd)
      (fun x hx => hb x (hpermall.mem_iff.mp hx))
      (by
        rintro ⟨⟨x, hx, hx0⟩, ⟨y, hy, hy65⟩⟩
        exact hw ⟨⟨x, hpermall.mem_iff.mp hx, hx0⟩, ⟨y, hpermall.mem_iff.mp hy, hy65⟩⟩)
    exact ⟨ihres.1, ihres.2.trans hpermall⟩

theorem feedAll_increasing :
    ∀ (l : List RPkt) (chl : Channel),
      (∀ p ∈ l, chl.accepts p = true) →
      List.Pairwise (fun a b : RPkt => a.seq < b.seq) l →
      (∀ q ∈ chl.pkts, ∀ p ∈ l, q.seq < p.seq) →
      (feedAll chl l).pkts = chl.pkts ++ l := by
  intro l
  induction l with
  | nil => intro chl _ _ _; simp [feedAll]
  | cons p rest ih =>
    intro chl hacc hsort hlt
    rw [List.pairwise_cons] at hsort
    obtain ⟨hp, hrest⟩ := hsort
    have hstep : (chl.add_pkt p).pkts = chl.pkts ++ [p] := by
      unfold Channel.add_pkt
      rw [hacc p (List.mem_cons_self _ _)]
      simp only [Bool.not_true, Bool.false_eq_true, if_false]
      rcases hl : chl.pkts.getLast? with _ | lastP
      · have hnil : chl.pkts = [] := List.getLast?_eq_none_iff.mp hl
        rw [hnil]
      · by_cases hfast : wrapAdd16 lastP.seq 1 == p.seq
        · simp [hl, hfast]
        · have hnone : find_first_greater_seq_pkt chl.pkts p = none := by
            refine find_first_greater_none chl.pkts p ?_
            intro q hq
            have := hlt q hq p (List.mem_cons_self _ _)
            omega
          simp [hl, hfast, hnone]
    have hfa : feedAll chl (p :: rest) = feedAll (chl.add_pkt p) rest := rfl
    rw [hfa]
    have ihres := ih (chl.add_pkt p)
      (fun q hq => by rw [accepts_add_pkt]; exact hacc q (List.mem_cons_of_mem _ hq))
      hrest
      (by
        intro q hq p' hp'
        rw [hstep] at hq
        rcases List.mem_append.mp hq with hq1 | hq2
        · exact hlt q hq1 p' (List.mem_cons_of_mem _ hp')
        · have : q = p := by simpa using hq2
          rw [this]
          exact hp p' hp')
    rw [ihres, hstep, List.append_assoc]
    rfl

/-- Claim C5, amended (the provable part): for a finite set of in-window
packets with pairwise distinct `u16` sequence numbers, provided the set
does not contain both sequence 0 and sequence 65535 (so the mod-`2^16`
fast path never wraps), feeding them to `Channel::add_pkt` in any arrival
order yields an ingress buffer strictly ascending in sequence number and
holding exactly the fed packets; and feeding them in strictly increasing
sequence order appends every packet at the buffer tail — the buffer ends
up equal to the fed list and the mid-buffer insertion never fires. -/
theorem add_pkt_permutation_invariance (chl : Channel) (l : List RPkt)
    (hemp : chl.pkts = [])
    (hacc : ∀ p ∈ l, chl.accepts p = true)
    (hnd : (l.map RPkt.seq).Nodup)
    (hb : ∀ p ∈ l, p.seq < u16Mod)
    (hw : ¬ ((∃ p ∈ l, p.seq = 0) ∧ (∃ p ∈ l, p.seq = 65535))) :
    (List.Pairwise (fun a b : RPkt => a.seq < b.seq) (feedAll chl l).pkts ∧
      (feedAll chl l).pkts.Perm l) ∧
    (List.Pairwise (fun a b : RPkt => a.seq < b.seq) l → (feedAll chl l).pkts = l) := by
  constructor
  · have h := feedAll_sorted_perm l chl hacc
      (by rw [hemp]; exact List.Pairwise.nil)
      (by rw [hemp]; simpa using hnd)
      (by rw [hemp]; simpa using hb)
      (by rw [hemp]; simpa using hw)
    rw [hemp] at h
    simpa using h
  · intro hsort
    have h := feedAll_increasing l chl hacc hsort (by rw [hemp]; simp)
    rw [hemp] at h
    simpa using h

/-- Claim C5, witness: feeding sequences `[5, 3]` (distinct, in-window,
no wrap pair) yields the sorted buffer `[3, 5]`; feeding `[3, 5]` in
increasing order reproduces the list itself. -/
theorem add_pkt_permutation_invariance_witness :
    (List.Pairwise (fun a b : RPkt => a.seq < b.seq)
        (feedAll chl0 [pktSeq5, pktSeq3]).pkts ∧
      (feedAll chl0 [pktSeq5, pktSeq3]).pkts.Perm [pktSeq5, pktSeq3]) ∧
    (feedAll chl0 [pktSeq3, pktSeq5]).pkts = [pktSeq3, pktSeq5] :=
  ⟨(add_pkt_permutation_invariance chl0 [pktSeq5, pktSeq3] rfl
      (by decide) (by decide) (by decide) (by decide)).1,
   (add_pkt_permutation_invariance chl0 [pktSeq3, pktSeq5] rfl
      (by decide) (by decide) (by decide) (by decide)).2 (by decide)⟩

/-- Claim C5, counterexample: the in-window packets with distinct
sequence numbers 65535 and 0, fed in the order `[65535, 0]`, hit the
wrapping fast path (`65535.wrapping_add(1) == 0`), so the buffer ends up
`[65535, 0]` — not ascending in sequence number; permutation invariance
fails as stated. -/
theorem add_pkt_wrap_order_counterexample :
    chl0.accepts pktTop = true ∧ chl0.accepts pktZero = true ∧
    pktTop.seq ≠ pktZero.seq ∧
    (feedAll chl0 [pktTop, pktZero]).pkts = [pktTop, pktZero] ∧
    ¬ List.Pairwise (fun a b : RPkt => a.seq < b.seq)
        (feedAll chl0 [pktTop, pktZero]).pkts := by
  refine ⟨by decide, by decide, by decide, by decide, by decide⟩

/-! ## List lemmas for the byte-level parser -/

theorem getD_drop (l : List Nat) (n i d : Nat) : (l.drop n).getD i d = l.getD (n + i) d := by
  simp [List.getD_eq_getElem?_getD, List.getElem?_drop]

theorem getLast?_drop_ne_nil (l : List Nat) (n : Nat) (h : l.drop n ≠ []) :
    (l.drop n).getLast? = l.getLast? := by
  induction l generalizing n with
  | nil => simp at h
  | cons a tl ih =>
    cases n with
    | zero => rfl
    | succ m =>
      rw [List.drop_succ_cons] at h ⊢
      rw [ih m h]
      have htl : tl ≠ [] := by
        intro hh
        rw [hh] at h
        simp at h
      rcases tl with _ | ⟨b, tl2⟩
      · exact absurd rfl htl
      · rw [List.getLast?_cons_cons]


/-! ## `parse_rtp` stage reductions -/

theorem parse_rtp_reduce_noext (data : List Nat)
    (h12 : ¬ data.length < 12) (hext : hasExtension data = false) :
    parse_rtp data = parsePadStage data (data.drop 12) := by
  simp [parse_rtp, h12, hext]

theorem parse_rtp_reduce_ext (data : List Nat)
    (h12 : ¬ data.length < 12) (hext : hasExtension data = true)
    (h4 : ¬ data.length - 12 < 4)
    (hlen : ¬ data.length - 12 - 4 < extLenWords data * 4) :
    parse_rtp data = parsePadStage data (data.drop (16 + extLenWords data * 4)) := by
  have hE : be16 (data[14]?.getD 0) (data[15]?.getD 0) = extLenWords data := by
    simp [extLenWords, List.getD_eq_getElem?_getD]
  have hidx : 12 + (4 + extLenWords data * 4) = 16 + extLenWords data * 4 := by omega
  simp [parse_rtp, h12, hext, hE, h4, hlen, hidx]

theorem parsePadStage_err_of_ge (data rem : List Nat) (len : Nat)
    (hpad : hasPadding data = true)
    (hlast : rem.getLast? = some len) (hge : rem.length ≤ len) :
    parsePadStage data rem ≠ Except.ok () := by
  intro hok
  simp [parsePadStage, hpad, hlast, hge] at hok

theorem parsePadStage_ok_pad (data rem : List Nat) (len : Nat)
    (hpad : hasPadding data = true)
    (hlast : rem.getLast? = some len)
    (hok : parsePadStage data rem = Except.ok ()) :
    len < rem.length ∧ 1 ≤ rem.length - 1 - len := by
  by_cases hple : rem.length ≤ len
  · exact absurd hok (parsePadStage_err_of_ge data rem len hpad hlast hple)
  by_cases hemp : (rem.take (rem.length - 1 - len)).isEmpty
  · exfalso
    rw [List.isEmpty_iff] at hemp
    simp [parsePadStage, hpad, hlast, hple, hemp] at hok
  · refine ⟨by omega, ?_⟩
    have hne : rem.take (rem.length - 1 - len) ≠ [] := by
      intro hh
      rw [hh] at hemp
      simp at hemp
    have hlen0 : (rem.take (rem.length - 1 - len)).length ≠ 0 := by
      intro hh
      exact hne (List.length_eq_zero.mp hh)
    rw [List.length_take] at hlen0
    omega

theorem parsePadStage_ok_nopad (data rem : List Nat)
    (hpad : hasPadding data = false)
    (hok : parsePadStage data rem = Except.ok ()) :
    rem ≠ [] := by
  intro hh
  rw [hh] at hok
  simp [parsePadStage, hpad] at hok

/-- Claim C8: `parse_rtp` rejects every buffer whose padding flag is set
and whose declared padding length is at least the number of bytes
remaining after the header and the extension block; and every buffer it
accepts has a non-empty payload slice (extension and padding stripped,
as computed by `RtpPacket::payload`). -/
theorem parse_rtp_padding_and_payload :
    (∀ (data : List Nat) (len : Nat),
      hasPadding data = true →
      (remAfterHeaderExt data).getLast? = some len →
      (remAfterHeaderExt data).length ≤ len →
      parse_rtp data ≠ Except.ok ()) ∧
    (∀ data : List Nat, parse_rtp data = Except.ok () →
      ∃ l, payloadOf data = some l ∧ l ≠ []) := by
  constructor
  · intro data len hpad hlast hge hok
    by_cases h12 : data.length < 12
    · simp [parse_rtp, h12] at hok
    by_cases hext : hasExtension data
    · by_cases h4 : data.length - 12 < 4
      · simp [parse_rtp, h12, hext, h4] at hok
      by_cases hlen : data.length - 12 - 4 < extLenWords data * 4
      · have hE : be16 (data[14]?.getD 0) (data[15]?.getD 0) = extLenWords data := by
          simp [extLenWords, List.getD_eq_getElem?_getD]
        simp [parse_rtp, h12, hext, hE, h4, hlen] at hok
      · rw [parse_rtp_reduce_ext data h12 hext h4 hlen] at hok
        have hrem : remAfterHeaderExt data = data.drop (16 + extLenWords data * 4) := by
          simp [remAfterHeaderExt, hext]
        rw [hrem] at hlast hge
        exact parsePadStage_err_of_ge data _ len hpad hlast hge hok
    · rw [parse_rtp_reduce_noext data h12 (by simpa using hext)] at hok
      have hrem : remAfterHeaderExt data = data.drop 12 := by
        simp [remAfterHeaderExt, hext]
      rw [hrem] at hlast hge
      exact parsePadStage_err_of_ge data _ len hpad hlast hge hok
  · intro data hok
    by_cases h12 : data.length < 12
    · simp [parse_rtp, h12] at hok
    by_cases hext : hasExtension data
    · by_cases h4 : data.length - 12 < 4
      · simp [parse_rtp, h12, hext, h4] at hok
      by_cases hlen : data.length - 12 - 4 < extLenWords data * 4
      · have hE : be16 (data[14]?.getD 0) (data[15]?.getD 0) = extLenWords data := by
          simp [extLenWords, List.getD_eq_getElem?_getD]
        simp [parse_rtp, h12, hext, hE, h4, hlen] at hok
      rw [parse_rtp_reduce_ext data h12 hext h4 hlen] at hok
      have hlr : (data.drop (16 + extLenWords data * 4)).length =
          data.length - (16 + extLenWords data * 4) := List.length_drop _ data
      have hlb : (data.drop (14 + extLenWords data * 4)).length =
          data.length - (14 + extLenWords data * 4) := List.length_drop _ data
      have hn16 : ¬ data.length < 16 := by omega
      have hn14 : ¬ data.length < 14 + extLenWords data * 4 := by omega
      by_cases hpad : hasPadding data
      · rcases hlast : (data.drop (16 + extLenWords data * 4)).getLast? with _ | len
        · exfalso
          simp [parsePadStage, hpad, hlast] at hok
        obtain ⟨hlt, hk⟩ := parsePadStage_ok_pad data _ len hpad hlast hok
        rw [hlr] at hlt hk
        have hbne : data.drop (14 + extLenWords data * 4) ≠ [] := by
          intro hh
          have := congrArg List.length hh
          rw [hlb] at this
          simp at this
          omega
        have hrne : data.drop (16 + extLenWords data * 4) ≠ [] := by
          intro hh
          have := congrArg List.length hh
          rw [hlr] at this
          simp at this
          omega
        have hlastbuf : (data.drop (14 + extLenWords data * 4)).getLast? = some len := by
          rw [getLast?_drop_ne_nil _ _ hbne, ← getLast?_drop_ne_nil _ _ hrne]
          exact hlast
        have hnotlt : ¬ (data.drop (14 + extLenWords data * 4)).length < len := by
          rw [hlb]
          omega
        refine ⟨(data.drop (14 + extLenWords data * 4)).take
            ((data.drop (14 + extLenWords data * 4)).length - len), ?_, ?_⟩
        · simp [payloadOf, hext, hn16, hn14, hpad, hlastbuf, hnotlt]
          omega
        · intro hnil
          have := congrArg List.length hnil
          rw [List.length_take, hlb] at this
          simp at this
          omega
      · have hrne := parsePadStage_ok_nopad data _ (by simpa using hpad) hok
        refine ⟨data.drop (14 + extLenWords data * 4), ?_, ?_⟩
        · simp [payloadOf, hext, hn16, hn14, hpad]
        · intro hh
          have := congrArg List.length hh
          rw [hlb] at this
          simp at this
          have hr0 : (data.drop (16 + extLenWords data * 4)).length ≠ 0 := by
            intro h0
            exact hrne (List.length_eq_zero.mp h0)
          rw [hlr] at hr0
          omega
    · rw [parse_rtp_reduce_noext data h12 (by simpa using hext)] at hok
      have hl12 : (data.drop 12).length = data.length - 12 := List.length_drop 12 data
      by_cases hpad : hasPadding data
      · rcases hlast : (data.drop 12).getLast? with _ | len
        · exfalso
          simp [parsePadStage, hpad, hlast] at hok
        obtain ⟨hlt, hk⟩ := parsePadStage_ok_pad data _ len hpad hlast hok
        rw [hl12] at hlt hk
        have hnotlt : ¬ (data.drop 12).length < len := by
          rw [hl12]
          omega
        refine ⟨(data.drop 12).take ((data.drop 12).length - len), ?_, ?_⟩
        · simp [payloadOf, hext, h12, hpad, hlast, hnotlt]
          omega
        · intro hnil
          have := congrArg List.length hnil
          rw [List.length_take, hl12] at this
          simp at this
          omega
      · have hrne := parsePadStage_ok_nopad data _ (by simpa using hpad) hok
        refine ⟨data.drop 12, ?_, ?_⟩
        · simp [payloadOf, hext, h12, hpad]
        · exact hrne

/-- Claim C8, witness: a 44-byte padded buffer whose declared padding
length 32 equals the remaining length is rejected, and the accepted
45-byte test packet of the `rtp.rs` unit test has a non-empty payload. -/
theorem parse_rtp_padding_and_payload_witness :
    parse_rtp badPadBytes ≠ Except.ok () ∧
    (∃ l, payloadOf testPktBytes = some l ∧ l ≠ []) :=
  ⟨parse_rtp_padding_and_payload.1 badPadBytes 32 (by decide) (by decide) (by decide),
   parse_rtp_padding_and_payload.2 testPktBytes (by rfl)⟩
